import Mathlib

/-!
Verification development for the slugify-core library (src/lib.rs).

Strings are modelled as lists of Unicode code points (`List Nat`); bytes as
`List Nat` with values below 256.  The library leans on four Unicode-aware
primitives from the Rust standard library and the unicode-normalization /
unicode-segmentation crates: character classification (is_alphabetic,
is_numeric, is_whitespace), full lowercasing (str::to_lowercase), canonical
composition (nfc), and UAX 29 word segmentation (unicode_words).  These are
embedded faithfully on a declared fragment of Unicode:

  ASCII, the Latin-1 block (except the fraction and superscript numerals
  U+00B2 U+00B3 U+00B9 U+00BC U+00BD U+00BE), the letters U+0130 and U+0131,
  Greek small mu U+03BC (the lowercase image of the micro sign U+00B5), and
  the combining marks U+0300-U+036F (with canonical composition data for
  U+0300, U+0301, U+0302, U+0303, U+0307, U+0308, U+030A, U+0327 over
  ASCII bases wherever the composite falls inside the fragment).

Within that fragment the tables below agree with the Unicode data the Rust
code uses; in particular U+0130 lowercases to the two code points U+0069
U+0307 (SpecialCasing), U+0307 is not alphabetic, and the pair
(U+0069, U+0307) has no canonical composition.  Outside the fragment the
classifiers return false and lowercasing is the identity.  The UAX 29
segmenter is modelled without the MidLetter / MidNumLet / Single_Quote /
MidNum join rules, so inputs that place characters such as U+0027 or U+002C
strictly between alphanumerics are outside the modelled fragment as well.
-/

/-- White_Space code points, exactly the set behind char::is_whitespace. -/
def isWS (c : Nat) : Bool :=
  (0x9 ≤ c && c ≤ 0xD) || c == 0x20 || c == 0x85 || c == 0xA0 || c == 0x1680 ||
  (0x2000 ≤ c && c ≤ 0x200A) || c == 0x2028 || c == 0x2029 || c == 0x202F ||
  c == 0x205F || c == 0x3000

/-- ASCII letters and digits, as in char::is_ascii_alphanumeric. -/
def isAsciiAlphanumeric (c : Nat) : Bool :=
  (0x30 ≤ c && c ≤ 0x39) || (0x41 ≤ c && c ≤ 0x5A) || (0x61 ≤ c && c ≤ 0x7A)

/-- Alphabetic property on the modelled fragment (char::is_alphabetic). -/
def isAlphabetic (c : Nat) : Bool :=
  (0x41 ≤ c && c ≤ 0x5A) || (0x61 ≤ c && c ≤ 0x7A) ||
  c == 0xAA || c == 0xB5 || c == 0xBA ||
  (0xC0 ≤ c && c ≤ 0xFF && c != 0xD7 && c != 0xF7) ||
  c == 0x130 || c == 0x131 || c == 0x3BC

/-- Numeric property on the modelled fragment (char::is_numeric). -/
def isNumeric (c : Nat) : Bool :=
  0x30 ≤ c && c ≤ 0x39

/-- char::is_alphanumeric = alphabetic or numeric. -/
def isAlphanumeric (c : Nat) : Bool :=
  isAlphabetic c || isNumeric c

/-- UAX 29 word-forming characters (ALetter or Numeric) on the fragment. -/
def wordChar (c : Nat) : Bool :=
  isAlphabetic c || isNumeric c

/-- UAX 29 Extend characters present in the fragment (combining marks). -/
def isExtend (c : Nat) : Bool :=
  0x300 ≤ c && c ≤ 0x36F

/-- Single-code-point part of Unicode lowercasing on the fragment. -/
def lowerChar (c : Nat) : Nat :=
  if 0x41 ≤ c && c ≤ 0x5A then c + 32
  else if 0xC0 ≤ c && c ≤ 0xDE && c != 0xD7 then c + 32
  else if c == 0xB5 then 0x3BC
  else c

/-- Full Unicode lowercasing of one code point (str::to_lowercase per
character); U+0130 expands to U+0069 U+0307 per SpecialCasing. -/
def lowerMap (c : Nat) : List Nat :=
  if c == 0x130 then [0x69, 0x307] else [lowerChar c]

/-- str::to_lowercase over a whole string. -/
def lowerStr (s : List Nat) : List Nat :=
  (s.map lowerMap).flatten

/-- Canonical composition of an adjacent pair, restricted to the fragment:
returns the primary composite of (a, b) when one exists. -/
def composePair (a b : Nat) : Option Nat :=
  if b == 0x300 then
    if a == 0x41 then some 0xC0 else if a == 0x45 then some 0xC8
    else if a == 0x49 then some 0xCC else if a == 0x4F then some 0xD2
    else if a == 0x55 then some 0xD9 else if a == 0x61 then some 0xE0
    else if a == 0x65 then some 0xE8 else if a == 0x69 then some 0xEC
    else if a == 0x6F then some 0xF2 else if a == 0x75 then some 0xF9
    else none
  else if b == 0x301 then
    if a == 0x41 then some 0xC1 else if a == 0x45 then some 0xC9
    else if a == 0x49 then some 0xCD else if a == 0x4F then some 0xD3
    else if a == 0x55 then some 0xDA else if a == 0x59 then some 0xDD
    else if a == 0x61 then some 0xE1 else if a == 0x65 then some 0xE9
    else if a == 0x69 then some 0xED else if a == 0x6F then some 0xF3
    else if a == 0x75 then some 0xFA else if a == 0x79 then some 0xFD
    else none
  else if b == 0x302 then
    if a == 0x41 then some 0xC2 else if a == 0x45 then some 0xCA
    else if a == 0x49 then some 0xCE else if a == 0x4F then some 0xD4
    else if a == 0x55 then some 0xDB else if a == 0x61 then some 0xE2
    else if a == 0x65 then some 0xEA else if a == 0x69 then some 0xEE
    else if a == 0x6F then some 0xF4 else if a == 0x75 then some 0xFB
    else none
  else if b == 0x303 then
    if a == 0x41 then some 0xC3 else if a == 0x4E then some 0xD1
    else if a == 0x4F then some 0xD5 else if a == 0x61 then some 0xE3
    else if a == 0x6E then some 0xF1 else if a == 0x6F then some 0xF5
    else none
  else if b == 0x307 then
    if a == 0x49 then some 0x130 else none
  else if b == 0x308 then
    if a == 0x41 then some 0xC4 else if a == 0x45 then some 0xCB
    else if a == 0x49 then some 0xCF else if a == 0x4F then some 0xD6
    else if a == 0x55 then some 0xDC else if a == 0x61 then some 0xE4
    else if a == 0x65 then some 0xEB else if a == 0x69 then some 0xEF
    else if a == 0x6F then some 0xF6 else if a == 0x75 then some 0xFC
    else if a == 0x79 then some 0xFF
    else none
  else if b == 0x30A then
    if a == 0x41 then some 0xC5 else if a == 0x61 then some 0xE5
    else none
  else if b == 0x327 then
    if a == 0x43 then some 0xC7 else if a == 0x63 then some 0xE7
    else none
  else none

/-- Auxiliary canonical-composition fold: acc is the pending starter. -/
def nfcAux (acc : Nat) : List Nat → List Nat
  | [] => [acc]
  | b :: rest =>
    match composePair acc b with
    | some c => nfcAux c rest
    | none => acc :: nfcAux b rest

/-- Canonical composition (NFC) on the fragment, as applied by
unicode_normalization's nfc() adapter. -/
def nfc : List Nat → List Nat
  | [] => []
  | c :: rest => nfcAux c rest

/-- str::trim — strip leading and trailing whitespace. -/
def trimStr (s : List Nat) : List Nat :=
  (((s.dropWhile isWS).reverse).dropWhile isWS).reverse

/-- Auxiliary word segmenter: cur holds the reversed word in progress. -/
def wordsAux : List Nat → List Nat → List (List Nat)
  | cur, [] => if cur.isEmpty then [] else [cur.reverse]
  | cur, c :: rest =>
    if cur.isEmpty then
      if wordChar c then wordsAux [c] rest else wordsAux [] rest
    else
      if wordChar c || isExtend c then wordsAux (c :: cur) rest
      else cur.reverse :: wordsAux [] rest

/-- unicode_words (UAX 29 on the fragment): maximal runs that start with a
word-forming character and continue through word-forming or Extend
characters; runs without an alphanumeric character never arise here, so
the crate's any-alphanumeric filter is implicit. -/
def unicodeWords (s : List Nat) : List (List Nat) :=
  wordsAux [] s

/-- Code points of a Lean string literal, for readable concrete inputs. -/
def str (s : String) : List Nat :=
  s.data.map Char.toNat

/-- The fixed stopword list COMMON_STOPWORDS from the source. -/
def COMMON_STOPWORDS : List (List Nat) :=
  [str "a", str "an", str "and", str "are", str "as", str "at", str "be",
   str "by", str "for", str "from", str "has", str "he", str "in", str "is",
   str "it", str "its", str "of", str "on", str "that", str "the", str "to",
   str "was", str "will", str "with", str "the", str "this", str "but",
   str "they", str "have"]

/-- SlugOptions record, mirroring the Rust struct. -/
structure SlugOptions where
  separator : Nat
  max_length : Option Nat
  lowercase : Bool
  remove_stopwords : Bool
  ascii_only : Bool
deriving DecidableEq

/-- Default::default() for SlugOptions. -/
def defaultOptions : SlugOptions :=
  ⟨0x2D, none, true, false, false⟩

/-- transliterate_char from the source: fixed Latin-1 table. -/
def transliterate_char (c : Nat) : Option Nat :=
  if (0xE0 ≤ c && c ≤ 0xE5) || (0xC0 ≤ c && c ≤ 0xC5) then some 0x61
  else if c == 0xE7 || c == 0xC7 then some 0x63
  else if (0xE8 ≤ c && c ≤ 0xEB) || (0xC8 ≤ c && c ≤ 0xCB) then some 0x65
  else if (0xEC ≤ c && c ≤ 0xEF) || (0xCC ≤ c && c ≤ 0xCF) then some 0x69
  else if c == 0xF1 || c == 0xD1 then some 0x6E
  else if (0xF2 ≤ c && c ≤ 0xF6) || (0xD2 ≤ c && c ≤ 0xD6) then some 0x6F
  else if (0xF9 ≤ c && c ≤ 0xFC) || (0xD9 ≤ c && c ≤ 0xDC) then some 0x75
  else if c == 0xFD || c == 0xFF || c == 0xDD then some 0x79
  else if c == 0xDF then some 0x73
  else none

/-- Character-level filtering of one word (the two branches on
options.ascii_only inside slugify's filter_map closure). -/
def processWordChars (o : SlugOptions) (w : List Nat) : List Nat :=
  if o.ascii_only then
    w.filterMap (fun c =>
      if isAsciiAlphanumeric c then some c
      else if isAlphabetic c then transliterate_char c
      else none)
  else
    w.filter (fun c => isAlphanumeric c || isAlphabetic c)

/-- The filter_map closure applied to each segmented word in slugify:
trim, drop if empty, drop stopwords (lowercased comparison), filter
characters, drop if the filtered word is empty. -/
def wordFilter (o : SlugOptions) (word : List Nat) : Option (List Nat) :=
  if (trimStr word).isEmpty then none
  else if o.remove_stopwords && COMMON_STOPWORDS.contains (lowerStr (trimStr word)) then
    none
  else if (processWordChars o (trimStr word)).isEmpty then none
  else some (processWordChars o (trimStr word))

/-- Words that survive segmentation and the filter_map. -/
def survivingWords (o : SlugOptions) (s : List Nat) : List (List Nat) :=
  (unicodeWords (nfc s)).filterMap (wordFilter o)

/-- Vec::join with the one-character separator string. -/
def joinedWords (o : SlugOptions) (s : List Nat) : List Nat :=
  List.intercalate [o.separator] (survivingWords o s)

/-- Joined words after the optional to_lowercase step. -/
def casedResult (o : SlugOptions) (s : List Nat) : List Nat :=
  if o.lowercase then lowerStr (joinedWords o s) else joinedWords o s

/-- UTF-8 byte length of one code point. -/
def byteLen (c : Nat) : Nat :=
  if c < 0x80 then 1 else if c < 0x800 then 2 else if c < 0x10000 then 3 else 4

/-- String::len — the UTF-8 byte length of a string. -/
def utf8Len (s : List Nat) : Nat :=
  (s.map byteLen).sum

/-- The while loop popping trailing separator characters. -/
def stripTrailingSep (sep : Nat) (s : List Nat) : List Nat :=
  ((s.reverse).dropWhile (fun c => c == sep)).reverse

/-- The max_length block of slugify: the branch is guarded by the byte
length (result.len()), the cut is at the max_len-th char index when one
exists, then trailing separators are stripped. -/
def truncStep (o : SlugOptions) (s : List Nat) : List Nat :=
  match o.max_length with
  | none => s
  | some maxLen =>
    if utf8Len s > maxLen then
      stripTrailingSep o.separator
        (if maxLen < s.length then s.take maxLen else s)
    else s

/-- slugify from the source: empty check, NFC, segmentation, per-word
filtering, join, casing, truncation. -/
def slugify (input : List Nat) (o : SlugOptions) : List Nat :=
  if (trimStr input).isEmpty then []
  else truncStep o (casedResult o input)


/-- UTF-8 encoding of one Unicode scalar value. -/
def utf8EncodeChar (c : Nat) : List Nat :=
  if c < 0x80 then [c]
  else if c < 0x800 then [0xC0 + c / 64, 0x80 + c % 64]
  else if c < 0x10000 then [0xE0 + c / 4096, 0x80 + c / 64 % 64, 0x80 + c % 64]
  else [0xF0 + c / 262144, 0x80 + c / 4096 % 64, 0x80 + c / 64 % 64, 0x80 + c % 64]

/-- UTF-8 encoding of a string (the byte contents of a Rust String). -/
def utf8Encode (s : List Nat) : List Nat :=
  (s.map utf8EncodeChar).flatten

/-- Strict UTF-8 decoding, as performed by CStr::to_str: rejects overlong
encodings, surrogate code points, values above 0x10FFFF, and truncated or
malformed sequences. -/
def utf8Decode : List Nat → Option (List Nat)
  | [] => some []
  | b :: rest =>
    if b ≤ 0x7F then (utf8Decode rest).map (b :: ·)
    else if 0xC2 ≤ b && b ≤ 0xDF then
      match rest with
      | b1 :: rest1 =>
        if 0x80 ≤ b1 && b1 ≤ 0xBF then
          (utf8Decode rest1).map (((b - 0xC0) * 64 + (b1 - 0x80)) :: ·)
        else none
      | [] => none
    else if 0xE0 ≤ b && b ≤ 0xEF then
      match rest with
      | b1 :: b2 :: rest2 =>
        if (if b == 0xE0 then 0xA0 ≤ b1 && b1 ≤ 0xBF
            else if b == 0xED then 0x80 ≤ b1 && b1 ≤ 0x9F
            else 0x80 ≤ b1 && b1 ≤ 0xBF) && (0x80 ≤ b2 && b2 ≤ 0xBF) then
          (utf8Decode rest2).map
            (((b - 0xE0) * 4096 + (b1 - 0x80) * 64 + (b2 - 0x80)) :: ·)
        else none
      | _ => none
    else if 0xF0 ≤ b && b ≤ 0xF4 then
      match rest with
      | b1 :: b2 :: b3 :: rest3 =>
        if (if b == 0xF0 then 0x90 ≤ b1 && b1 ≤ 0xBF
            else if b == 0xF4 then 0x80 ≤ b1 && b1 ≤ 0x8F
            else 0x80 ≤ b1 && b1 ≤ 0xBF) &&
           (0x80 ≤ b2 && b2 ≤ 0xBF) && (0x80 ≤ b3 && b3 ≤ 0xBF) then
          (utf8Decode rest3).map
            (((b - 0xF0) * 262144 + (b1 - 0x80) * 4096 + (b2 - 0x80) * 64 +
              (b3 - 0x80)) :: ·)
        else none
      | _ => none
    else none

/-- slugify_simple: a null input pointer is modelled as none; a non-null
pointer carries the NUL-free bytes read by CStr::from_ptr.  Invalid UTF-8
yields null; CString::new fails exactly when the result bytes contain an
embedded NUL. -/
def slugify_simple (input : Option (List Nat)) : Option (List Nat) :=
  match input with
  | none => none
  | some bytes =>
    match utf8Decode bytes with
    | none => none
    | some s =>
      if (utf8Encode (slugify s defaultOptions)).contains 0 then none
      else some (utf8Encode (slugify s defaultOptions))

/-- c_char (i8) reinterpreted as u8, then as a Unicode code point. -/
def c_char_to_byte (x : Int) : Nat :=
  (x % 256).toNat

/-- slugify_with_options: same boundary contract as slugify_simple, with
the separator byte reinterpreted as a code point 0-255 and a non-positive
max_length meaning unbounded. -/
def slugify_with_options (input : Option (List Nat)) (separator : Int)
    (max_length : Int) (lowercase remove_stopwords ascii_only : Bool) :
    Option (List Nat) :=
  match input with
  | none => none
  | some bytes =>
    match utf8Decode bytes with
    | none => none
    | some s =>
      let o : SlugOptions :=
        ⟨c_char_to_byte separator,
         if max_length > 0 then some max_length.toNat else none,
         lowercase, remove_stopwords, ascii_only⟩
      if (utf8Encode (slugify s o)).contains 0 then none
      else some (utf8Encode (slugify s o))


theorem wordChar_eq_alnum (c : Nat) : wordChar c = isAlphanumeric c := rfl

theorem ws_not_alnum (c : Nat) (h : isWS c = true) : isAlphanumeric c = false := by
  cases hb : isAlphanumeric c with
  | false => rfl
  | true =>
    exfalso
    simp only [isWS, Bool.or_eq_true, Bool.and_eq_true, decide_eq_true_eq, beq_iff_eq] at h
    simp only [isAlphanumeric, isAlphabetic, isNumeric, Bool.or_eq_true, Bool.and_eq_true,
      decide_eq_true_eq, beq_iff_eq, bne_iff_ne] at hb
    omega

theorem alnum_not_ws (c : Nat) (h : isAlphanumeric c = true) : isWS c = false := by
  cases hb : isWS c with
  | false => rfl
  | true => rw [ws_not_alnum c hb] at h; exact absurd h (by simp)

theorem asciiAlnum_alnum (c : Nat) (h : isAsciiAlphanumeric c = true) :
    isAlphanumeric c = true := by
  simp only [isAsciiAlphanumeric, Bool.or_eq_true, Bool.and_eq_true, decide_eq_true_eq] at h
  simp only [isAlphanumeric, isAlphabetic, isNumeric, Bool.or_eq_true, Bool.and_eq_true,
    decide_eq_true_eq, beq_iff_eq, bne_iff_ne]
  omega

theorem alnum_bounds (c : Nat) (h : isAlphanumeric c = true) :
    c ≤ 0x131 ∨ c = 0x3BC := by
  simp only [isAlphanumeric, isAlphabetic, isNumeric, Bool.or_eq_true, Bool.and_eq_true,
    decide_eq_true_eq, beq_iff_eq, bne_iff_ne] at h
  omega

theorem translit_asciiAlnum (c m : Nat) (h : transliterate_char c = some m) :
    isAsciiAlphanumeric m = true := by
  unfold transliterate_char at h
  split_ifs at h
  all_goals (cases h)
  all_goals decide

theorem lowerChar_cases (c : Nat) :
    (0x41 ≤ c ∧ c ≤ 0x5A ∧ lowerChar c = c + 32) ∨
    (0xC0 ≤ c ∧ c ≤ 0xDE ∧ c ≠ 0xD7 ∧ lowerChar c = c + 32) ∨
    (c = 0xB5 ∧ lowerChar c = 0x3BC) ∨
    (¬(0x41 ≤ c ∧ c ≤ 0x5A) ∧ ¬(0xC0 ≤ c ∧ c ≤ 0xDE ∧ c ≠ 0xD7) ∧ c ≠ 0xB5 ∧
      lowerChar c = c) := by
  unfold lowerChar
  split_ifs <;>
    simp only [Bool.and_eq_true, decide_eq_true_eq, beq_iff_eq, bne_iff_ne, and_true,
      true_and] at * <;>
    omega

theorem lowerChar_alnum (c : Nat) (h : isAlphanumeric c = true) :
    isAlphanumeric (lowerChar c) = true := by
  simp only [isAlphanumeric, isAlphabetic, isNumeric, Bool.or_eq_true, Bool.and_eq_true,
    decide_eq_true_eq, beq_iff_eq, bne_iff_ne] at h ⊢
  rcases lowerChar_cases c with ⟨_, _, he⟩ | ⟨_, _, _, he⟩ | ⟨_, he⟩ | ⟨_, _, _, he⟩ <;>
    rw [he] <;> omega

theorem lowerChar_asciiAlnum (c : Nat) (h : isAsciiAlphanumeric c = true) :
    isAsciiAlphanumeric (lowerChar c) = true := by
  simp only [isAsciiAlphanumeric, Bool.or_eq_true, Bool.and_eq_true, decide_eq_true_eq] at h ⊢
  rcases lowerChar_cases c with ⟨_, _, he⟩ | ⟨_, _, _, he⟩ | ⟨_, he⟩ | ⟨_, _, _, he⟩ <;>
    rw [he] <;> omega

theorem lowerChar_ne_special (c : Nat) : lowerChar c = 0x130 → c = 0x130 := by
  rcases lowerChar_cases c with ⟨_, _, he⟩ | ⟨_, _, _, he⟩ | ⟨_, he⟩ | ⟨_, _, _, he⟩ <;>
    rw [he] <;> omega

theorem lowerChar_fix (c : Nat) : lowerChar (lowerChar c) = lowerChar c := by
  rcases lowerChar_cases c with ⟨p1, p2, he⟩ | ⟨p1, p2, p3, he⟩ | ⟨p1, he⟩ | ⟨p1, p2, p3, he⟩ <;>
    rw [he] <;>
    rcases lowerChar_cases (lowerChar c) with ⟨q1, q2, hf⟩ | ⟨q1, q2, q3, hf⟩ | ⟨q1, hf⟩ |
      ⟨q1, q2, q3, hf⟩ <;>
    rw [he] at hf q1 <;> omega

theorem lowerChar_not_alpha (c : Nat) (h : isAlphabetic c = false) : lowerChar c = c := by
  have hc : ¬ isAlphabetic c = true := by simp [h]
  simp only [isAlphabetic, Bool.or_eq_true, Bool.and_eq_true, decide_eq_true_eq,
    beq_iff_eq, bne_iff_ne, not_or] at hc
  rcases lowerChar_cases c with ⟨p1, p2, he⟩ | ⟨p1, p2, p3, he⟩ | ⟨p1, he⟩ | ⟨p1, p2, p3, he⟩ <;>
    rw [he] <;> omega

theorem lowerMap_ne_nil (c : Nat) : lowerMap c ≠ [] := by
  unfold lowerMap
  split <;> simp

theorem mem_lowerMap (c d : Nat) (h : d ∈ lowerMap c) :
    (c = 0x130 ∧ (d = 0x69 ∨ d = 0x307)) ∨ (c ≠ 0x130 ∧ d = lowerChar c) := by
  unfold lowerMap at h
  split at h
  · rename_i hc
    simp only [beq_iff_eq] at hc
    simp only [List.mem_cons, List.mem_singleton, List.not_mem_nil, or_false] at h
    exact Or.inl ⟨hc, h⟩
  · rename_i hc
    simp only [beq_iff_eq] at hc
    simp only [List.mem_singleton] at h
    exact Or.inr ⟨hc, h⟩

theorem lowerMap_eq_single (c : Nat) (hc : c ≠ 0x130) : lowerMap c = [lowerChar c] := by
  unfold lowerMap
  split
  · rename_i h; simp only [beq_iff_eq] at h; exact absurd h hc
  · rfl

theorem lowerMap_stable (c d : Nat) (h : d ∈ lowerMap c) : lowerMap d = [d] := by
  rcases mem_lowerMap c d h with ⟨hc, hd | hd⟩ | ⟨hc, hd⟩
  · subst hd; decide
  · subst hd; decide
  · subst hd
    rw [lowerMap_eq_single (lowerChar c) (fun hx => hc (lowerChar_ne_special c hx))]
    rw [lowerChar_fix c]

theorem lowerMap_not_alpha (c : Nat) (h : isAlphabetic c = false) : lowerMap c = [c] := by
  have hc : c ≠ 0x130 := by
    intro hx; subst hx; exact absurd h (by decide)
  rw [lowerMap_eq_single c hc, lowerChar_not_alpha c h]

theorem mem_lowerMap_alnum (c d : Nat) (hc : isAlphanumeric c = true) (h : d ∈ lowerMap c) :
    isAlphanumeric d = true ∨ d = 0x307 := by
  rcases mem_lowerMap c d h with ⟨_, hd | hd⟩ | ⟨_, hd⟩
  · subst hd; left; decide
  · subst hd; right; rfl
  · subst hd; left; exact lowerChar_alnum c hc

theorem composePair_eq_none (a b : Nat) (hb : b < 0x300 ∨ 0x36F < b) :
    composePair a b = none := by
  have h1 : (b == 0x300) = false := by rw [beq_eq_false_iff_ne]; omega
  have h2 : (b == 0x301) = false := by rw [beq_eq_false_iff_ne]; omega
  have h3 : (b == 0x302) = false := by rw [beq_eq_false_iff_ne]; omega
  have h4 : (b == 0x303) = false := by rw [beq_eq_false_iff_ne]; omega
  have h5 : (b == 0x307) = false := by rw [beq_eq_false_iff_ne]; omega
  have h6 : (b == 0x308) = false := by rw [beq_eq_false_iff_ne]; omega
  have h7 : (b == 0x30A) = false := by rw [beq_eq_false_iff_ne]; omega
  have h8 : (b == 0x327) = false := by rw [beq_eq_false_iff_ne]; omega
  unfold composePair
  simp [h1, h2, h3, h4, h5, h6, h7, h8]

theorem lowerStr_nil : lowerStr [] = [] := rfl

theorem lowerStr_cons (c : Nat) (s : List Nat) :
    lowerStr (c :: s) = lowerMap c ++ lowerStr s := rfl

theorem lowerStr_append (a b : List Nat) :
    lowerStr (a ++ b) = lowerStr a ++ lowerStr b := by
  simp [lowerStr]

theorem lowerStr_single (c : Nat) : lowerStr [c] = lowerMap c := by
  simp [lowerStr]

theorem mem_lowerStr (d : Nat) (s : List Nat) (h : d ∈ lowerStr s) :
    ∃ c ∈ s, d ∈ lowerMap c := by
  simp only [lowerStr, List.mem_flatten, List.mem_map] at h
  rcases h with ⟨l, ⟨c, hc, hl⟩, hd⟩
  exact ⟨c, hc, hl ▸ hd⟩

theorem lowerStr_lowerMap (c : Nat) : lowerStr (lowerMap c) = lowerMap c := by
  by_cases hc : c = 0x130
  · subst hc; decide
  · rw [lowerMap_eq_single c hc, lowerStr_single]
    exact lowerMap_stable c (lowerChar c) (by rw [lowerMap_eq_single c hc]; simp)

theorem lowerStr_idem (s : List Nat) : lowerStr (lowerStr s) = lowerStr s := by
  induction s with
  | nil => rfl
  | cons c t ih => rw [lowerStr_cons, lowerStr_append, ih, lowerStr_lowerMap]

theorem lowerStr_cons_ne_nil (c : Nat) (s : List Nat) : lowerStr (c :: s) ≠ [] := by
  rw [lowerStr_cons]
  intro h
  exact lowerMap_ne_nil c (List.append_eq_nil.mp h).1

theorem dropWhile_eq_self_of (p : Nat → Bool) (s : List Nat)
    (h : ∀ c ∈ s, p c = false) : s.dropWhile p = s := by
  cases s with
  | nil => rfl
  | cons c t =>
    rw [List.dropWhile_cons_of_neg]
    simp [h c (List.mem_cons_self c t)]

theorem trimStr_eq_self (s : List Nat) (h : ∀ c ∈ s, isWS c = false) : trimStr s = s := by
  unfold trimStr
  rw [dropWhile_eq_self_of _ _ h,
    dropWhile_eq_self_of _ _ (fun c hc => h c (List.mem_reverse.mp hc)),
    List.reverse_reverse]

theorem dropWhile_eq_nil_of (p : Nat → Bool) (s : List Nat)
    (h : ∀ c ∈ s, p c = true) : s.dropWhile p = [] := by
  induction s with
  | nil => rfl
  | cons c t ih =>
    rw [List.dropWhile_cons_of_pos (by simp [h c (List.mem_cons_self c t)])]
    exact ih (fun d hd => h d (List.mem_cons_of_mem c hd))

theorem trimStr_eq_nil_of (s : List Nat) (h : ∀ c ∈ s, isWS c = true) : trimStr s = [] := by
  unfold trimStr
  rw [dropWhile_eq_nil_of _ _ h]
  rfl

theorem all_of_dropWhile_eq_nil (p : Nat → Bool) (l : List Nat)
    (h : l.dropWhile p = []) : ∀ c ∈ l, p c = true := by
  induction l with
  | nil => simp
  | cons c t ih =>
    by_cases hc : p c = true
    · rw [List.dropWhile_cons_of_pos (by simp [hc])] at h
      intro d hd
      rcases List.mem_cons.mp hd with rfl | hd
      · exact hc
      · exact ih h d hd
    · rw [List.dropWhile_cons_of_neg (by simp [hc])] at h
      simp at h

theorem all_ws_of_trimStr_eq_nil (s : List Nat) (h : trimStr s = []) :
    ∀ c ∈ s, isWS c = true := by
  unfold trimStr at h
  rw [List.reverse_eq_nil_iff] at h
  have h3 := all_of_dropWhile_eq_nil _ _ h
  intro c hc
  rw [← List.takeWhile_append_dropWhile isWS s] at hc
  rcases List.mem_append.mp hc with hc | hc
  · exact List.mem_takeWhile_imp hc
  · exact h3 c (List.mem_reverse.mpr hc)

theorem nfcAux_no_comb (rest : List Nat) (h : ∀ b ∈ rest, b < 0x300 ∨ 0x36F < b) :
    ∀ acc, nfcAux acc rest = acc :: rest := by
  induction rest with
  | nil => intro acc; rfl
  | cons b t ih =>
    intro acc
    have hc := composePair_eq_none acc b (h b (List.mem_cons_self b t))
    simp only [nfcAux, hc]
    rw [ih (fun d hd => h d (List.mem_cons_of_mem b hd)) b]

theorem nfc_eq_self (s : List Nat) (h : ∀ c ∈ s, c < 0x300 ∨ 0x36F < c) : nfc s = s := by
  cases s with
  | nil => rfl
  | cons c t =>
    exact nfcAux_no_comb t (fun b hb => h b (List.mem_cons_of_mem c hb)) c

theorem intercalate_nil (s : List Nat) : List.intercalate s ([] : List (List Nat)) = [] := rfl

theorem intercalate_single (s w : List Nat) : List.intercalate s [w] = w := by
  simp [List.intercalate]

theorem intercalate_cons₂ (s w w2 : List Nat) (t : List (List Nat)) :
    List.intercalate s (w :: w2 :: t) = w ++ s ++ List.intercalate s (w2 :: t) := by
  simp [List.intercalate, List.flatten_cons, List.append_assoc]

theorem intercalate_ne_nil (s : List Nat) (ws : List (List Nat)) (h0 : ws ≠ [])
    (hne : ∀ w ∈ ws, w ≠ []) : List.intercalate s ws ≠ [] := by
  cases ws with
  | nil => exact absurd rfl h0
  | cons w t =>
    cases t with
    | nil =>
      rw [intercalate_single]
      exact hne w (List.mem_cons_self w [])
    | cons w2 t2 =>
      rw [intercalate_cons₂]
      intro hx
      rcases List.append_eq_nil.mp hx with ⟨hx1, _⟩
      rcases List.append_eq_nil.mp hx1 with ⟨hx3, _⟩
      exact hne w (List.mem_cons_self w _) hx3

theorem mem_intercalate (c : Nat) (s : List Nat) (ws : List (List Nat))
    (h : c ∈ List.intercalate s ws) : c ∈ s ∨ ∃ w ∈ ws, c ∈ w := by
  induction ws with
  | nil => rw [intercalate_nil] at h; cases h
  | cons w t ih =>
    cases t with
    | nil =>
      rw [intercalate_single] at h
      exact Or.inr ⟨w, List.mem_cons_self w [], h⟩
    | cons w2 t2 =>
      rw [intercalate_cons₂] at h
      rcases List.mem_append.mp h with h1 | h2
      · rcases List.mem_append.mp h1 with ha | hb
        · exact Or.inr ⟨w, List.mem_cons_self w _, ha⟩
        · exact Or.inl hb
      · rcases ih h2 with ha | ⟨w', hw', hc⟩
        · exact Or.inl ha
        · exact Or.inr ⟨w', List.mem_cons_of_mem w hw', hc⟩

theorem lowerStr_intercalate (sep : Nat) (ws : List (List Nat)) :
    lowerStr (List.intercalate [sep] ws) =
    List.intercalate (lowerMap sep) (ws.map lowerStr) := by
  induction ws with
  | nil => rfl
  | cons w t ih =>
    cases t with
    | nil => simp [intercalate_single]
    | cons w2 t2 =>
      rw [intercalate_cons₂, lowerStr_append, lowerStr_append, ih, lowerStr_single]
      rw [show List.map lowerStr (w :: w2 :: t2) =
        lowerStr w :: lowerStr w2 :: List.map lowerStr t2 from rfl, intercalate_cons₂]
      rfl

theorem count_intercalate (sep : Nat) (ws : List (List Nat))
    (h : ∀ w ∈ ws, sep ∉ w) :
    (List.intercalate [sep] ws).count sep = ws.length - 1 := by
  induction ws with
  | nil => rw [intercalate_nil]; rfl
  | cons w t ih =>
    cases t with
    | nil =>
      rw [intercalate_single]
      simp [List.count_eq_zero_of_not_mem (h w (List.mem_cons_self w []))]
    | cons w2 t2 =>
      rw [intercalate_cons₂, List.count_append, List.count_append,
        List.count_eq_zero_of_not_mem (h w (List.mem_cons_self w _)),
        ih (fun w' hw' => h w' (List.mem_cons_of_mem w hw'))]
      simp [List.count_singleton_self]
      omega

theorem getLast_intercalate (sep : Nat) (ws : List (List Nat))
    (hne : ∀ w ∈ ws, w ≠ []) :
    ws = [] ∨ ∃ w ∈ ws, (List.intercalate [sep] ws).getLast? = w.getLast? := by
  induction ws with
  | nil => exact Or.inl rfl
  | cons w t ih =>
    right
    cases t with
    | nil => exact ⟨w, List.mem_cons_self w [], by rw [intercalate_single]⟩
    | cons w2 t2 =>
      rcases ih (fun w' hw' => hne w' (List.mem_cons_of_mem w hw')) with h | ⟨w', hw', he⟩
      · cases h
      · refine ⟨w', List.mem_cons_of_mem w hw', ?_⟩
        rw [intercalate_cons₂, List.getLast?_append]
        have hnn : List.intercalate [sep] (w2 :: t2) ≠ [] :=
          intercalate_ne_nil [sep] (w2 :: t2) (by simp)
            (fun w'' hw'' => hne w'' (List.mem_cons_of_mem w hw''))
        obtain ⟨y, hy⟩ : ∃ y, (List.intercalate [sep] (w2 :: t2)).getLast? = some y := by
          cases hB : (List.intercalate [sep] (w2 :: t2)).getLast? with
          | none => exact absurd (List.getLast?_eq_none_iff.mp hB) hnn
          | some y => exact ⟨y, rfl⟩
        rw [hy, ← he, hy]
        rfl

theorem wordsAux_consume (w : List Nat) (hw : ∀ c ∈ w, wordChar c = true) :
    ∀ cur l, cur ≠ [] → wordsAux cur (w ++ l) = wordsAux (w.reverse ++ cur) l := by
  induction w with
  | nil => intro cur l _; rfl
  | cons c t ih =>
    intro cur l hc
    have hcur : cur.isEmpty = false := by simp [hc]
    have hwc : (wordChar c || isExtend c) = true := by
      simp [hw c (List.mem_cons_self c t)]
    show wordsAux cur (c :: (t ++ l)) = _
    simp only [wordsAux, hcur, hwc]
    rw [ih (fun d hd => hw d (List.mem_cons_of_mem c hd)) (c :: cur) l (by simp)]
    simp [List.append_assoc]

theorem wordsAux_single (w : List Nat) (hne : w ≠ [])
    (hw : ∀ c ∈ w, wordChar c = true) : wordsAux [] w = [w] := by
  cases w with
  | nil => exact absurd rfl hne
  | cons c t =>
    have hwc : wordChar c = true := hw c (List.mem_cons_self c t)
    have : wordsAux [] (c :: t) = wordsAux [c] t := by
      simp only [wordsAux, List.isEmpty_nil, hwc]
      rfl
    rw [this, show t = t ++ [] from (List.append_nil t).symm,
      wordsAux_consume t (fun d hd => hw d (List.mem_cons_of_mem c hd)) [c] [] (by simp)]
    simp [wordsAux]

theorem wordsAux_sep_cons (cur : List Nat) (hc : cur ≠ []) (sep : Nat)
    (hsep : wordChar sep = false) (hsep2 : isExtend sep = false) (l : List Nat) :
    wordsAux cur (sep :: l) = cur.reverse :: wordsAux [] l := by
  have hcur : cur.isEmpty = false := by simp [hc]
  simp only [wordsAux, hcur, hsep, hsep2]
  rfl

theorem unicodeWords_intercalate (sep : Nat) (hsep : wordChar sep = false)
    (hsep2 : isExtend sep = false) (ws : List (List Nat))
    (hne : ∀ w ∈ ws, w ≠ []) (hw : ∀ w ∈ ws, ∀ c ∈ w, wordChar c = true) :
    unicodeWords (List.intercalate [sep] ws) = ws := by
  induction ws with
  | nil => rfl
  | cons w t ih =>
    cases t with
    | nil =>
      rw [intercalate_single]
      exact wordsAux_single w (hne w (List.mem_cons_self w []))
        (hw w (List.mem_cons_self w []))
    | cons w2 t2 =>
      rw [intercalate_cons₂]
      cases hwe : w with
      | nil => exact absurd hwe (hne w (List.mem_cons_self w _))
      | cons c t3 =>
        have hwc : wordChar c = true := by
          have := hw w (List.mem_cons_self w _)
          rw [hwe] at this
          exact this c (List.mem_cons_self c t3)
        unfold unicodeWords
        have step1 : wordsAux [] ((c :: t3) ++ [sep] ++ List.intercalate [sep] (w2 :: t2)) =
            wordsAux [c] (t3 ++ ([sep] ++ List.intercalate [sep] (w2 :: t2))) := by
          simp only [List.cons_append, List.append_assoc]
          simp only [wordsAux, List.isEmpty_nil, hwc]
          rfl
        rw [step1, wordsAux_consume t3
          (by
            intro d hd
            have := hw w (List.mem_cons_self w _)
            rw [hwe] at this
            exact this d (List.mem_cons_of_mem c hd)) [c]
          ([sep] ++ List.intercalate [sep] (w2 :: t2)) (by simp)]
        show wordsAux (t3.reverse ++ [c]) (sep :: List.intercalate [sep] (w2 :: t2)) = _
        rw [wordsAux_sep_cons (t3.reverse ++ [c]) (by simp) sep hsep hsep2]
        have ht : (t3.reverse ++ [c]).reverse = c :: t3 := by simp
        rw [ht]
        have := ih (fun w' hw' => hne w' (List.mem_cons_of_mem w hw'))
          (fun w' hw' => hw w' (List.mem_cons_of_mem w hw'))
        unfold unicodeWords at this
        rw [this]

theorem unicodeWords_nil_of_no_wordChar (s : List Nat)
    (h : ∀ c ∈ s, wordChar c = false) : unicodeWords s = [] := by
  unfold unicodeWords
  induction s with
  | nil => rfl
  | cons c t ih =>
    simp only [wordsAux, List.isEmpty_nil, h c (List.mem_cons_self c t)]
    exact ih (fun d hd => h d (List.mem_cons_of_mem c hd))

theorem stripTrailingSep_getLast (sep : Nat) (s : List Nat) :
    (stripTrailingSep sep s).getLast? ≠ some sep := by
  unfold stripTrailingSep
  rw [List.getLast?_reverse]
  intro h
  have hd := List.head?_dropWhile_not (fun c => c == sep) s.reverse
  rw [h] at hd
  simp at hd

theorem stripTrailingSep_length_le (sep : Nat) (s : List Nat) :
    (stripTrailingSep sep s).length ≤ s.length := by
  unfold stripTrailingSep
  have := (List.dropWhile_sublist (l := s.reverse) (fun c => c == sep)).length_le
  simpa using this

theorem stripTrailingSep_subset (sep : Nat) (s : List Nat) (c : Nat)
    (h : c ∈ stripTrailingSep sep s) : c ∈ s := by
  unfold stripTrailingSep at h
  rw [List.mem_reverse] at h
  exact List.mem_reverse.mp (List.dropWhile_subset _ h)

theorem stripTrailingSep_eq_self (sep : Nat) (s : List Nat)
    (h : s.getLast? ≠ some sep) : stripTrailingSep sep s = s := by
  unfold stripTrailingSep
  cases hs : s.reverse with
  | nil =>
    rw [List.reverse_eq_nil_iff] at hs
    subst hs; rfl
  | cons c t =>
    have hc : c ≠ sep := by
      intro hx
      subst hx
      apply h
      rw [← List.head?_reverse, hs]
      rfl
    rw [List.dropWhile_cons_of_neg (by simp [hc]), ← hs, List.reverse_reverse]

theorem byteLen_pos (c : Nat) : 1 ≤ byteLen c := by
  unfold byteLen
  split_ifs <;> omega

theorem length_le_utf8Len (s : List Nat) : s.length ≤ utf8Len s := by
  induction s with
  | nil => simp [utf8Len]
  | cons c t ih =>
    have := byteLen_pos c
    simp only [utf8Len, List.map_cons, List.sum_cons, List.length_cons] at *
    omega

theorem truncStep_none (o : SlugOptions) (s : List Nat) (h : o.max_length = none) :
    truncStep o s = s := by
  simp [truncStep, h]

theorem truncStep_mem (o : SlugOptions) (s : List Nat) (c : Nat)
    (h : c ∈ truncStep o s) : c ∈ s := by
  cases hml : o.max_length with
  | none => simp only [truncStep, hml] at h; exact h
  | some N =>
    simp only [truncStep, hml] at h
    by_cases h1 : utf8Len s > N
    · rw [if_pos h1] at h
      have h2 := stripTrailingSep_subset _ _ _ h
      by_cases h3 : N < s.length
      · rw [if_pos h3] at h2
        exact List.mem_of_mem_take h2
      · rw [if_neg h3] at h2
        exact h2
    · rw [if_neg h1] at h
      exact h

theorem truncStep_length_le (o : SlugOptions) (s : List Nat) (N : Nat)
    (h : o.max_length = some N) : (truncStep o s).length ≤ N := by
  simp only [truncStep, h]
  by_cases h1 : utf8Len s > N
  · rw [if_pos h1]
    by_cases h2 : N < s.length
    · rw [if_pos h2]
      calc (stripTrailingSep o.separator (s.take N)).length
          ≤ (s.take N).length := stripTrailingSep_length_le _ _
        _ ≤ N := by rw [List.length_take]; omega
    · rw [if_neg h2]
      calc (stripTrailingSep o.separator s).length
          ≤ s.length := stripTrailingSep_length_le _ _
        _ ≤ N := by omega
  · rw [if_neg h1]
    have := length_le_utf8Len s
    omega

theorem mem_processWordChars (o : SlugOptions) (w : List Nat) (c : Nat)
    (h : c ∈ processWordChars o w) :
    isAlphanumeric c = true ∧ (o.ascii_only = true → isAsciiAlphanumeric c = true) := by
  unfold processWordChars at h
  split at h
  · rcases List.mem_filterMap.mp h with ⟨d, _, he⟩
    split at he
    · cases he
      rename_i hd
      exact ⟨asciiAlnum_alnum _ hd, fun _ => hd⟩
    · split at he
      · have := translit_asciiAlnum d c he
        exact ⟨asciiAlnum_alnum c this, fun _ => this⟩
      · cases he
  · rename_i hao
    rcases List.mem_filter.mp h with ⟨_, hp⟩
    refine ⟨?_, fun hx => absurd hx hao⟩
    simp only [Bool.or_eq_true] at hp
    rcases hp with h1 | h1
    · exact h1
    · simp [isAlphanumeric, h1]

theorem mem_survivingWords (o : SlugOptions) (s : List Nat) (w : List Nat)
    (h : w ∈ survivingWords o s) :
    w ≠ [] ∧ ∀ c ∈ w, isAlphanumeric c = true ∧
      (o.ascii_only = true → isAsciiAlphanumeric c = true) := by
  unfold survivingWords at h
  rcases List.mem_filterMap.mp h with ⟨w0, _, hf⟩
  unfold wordFilter at hf
  split at hf
  · cases hf
  · split at hf
    · cases hf
    · split at hf
      · cases hf
      · rename_i hne
        cases hf
        refine ⟨by simpa using hne, ?_⟩
        intro c hc
        exact mem_processWordChars o (trimStr w0) c hc

theorem mem_joinedWords (o : SlugOptions) (s : List Nat) (c : Nat)
    (h : c ∈ joinedWords o s) :
    c = o.separator ∨ ∃ w ∈ survivingWords o s, c ∈ w := by
  unfold joinedWords at h
  rcases mem_intercalate c [o.separator] _ h with h1 | h2
  · left; simpa using h1
  · right; exact h2

theorem mem_casedResult (o : SlugOptions) (s : List Nat) (c : Nat)
    (h : c ∈ casedResult o s) :
    (o.lowercase = true ∧ ∃ d, d ∈ joinedWords o s ∧ c ∈ lowerMap d) ∨
    (o.lowercase = false ∧ c ∈ joinedWords o s) := by
  unfold casedResult at h
  split at h
  · rename_i hl
    exact Or.inl ⟨hl, mem_lowerStr c _ h⟩
  · rename_i hl
    exact Or.inr ⟨by simpa using hl, h⟩

theorem mem_slugify (input : List Nat) (o : SlugOptions) (c : Nat)
    (h : c ∈ slugify input o) : c ∈ casedResult o input := by
  unfold slugify at h
  split at h
  · cases h
  · exact truncStep_mem o _ c h


theorem ws_range (c : Nat) (h : isWS c = true) : c < 0x300 ∨ 0x36F < c := by
  simp only [isWS, Bool.or_eq_true, Bool.and_eq_true, decide_eq_true_eq, beq_iff_eq] at h
  omega

theorem asciiAlnum_lt (c : Nat) (h : isAsciiAlphanumeric c = true) : c < 0x80 := by
  simp only [isAsciiAlphanumeric, Bool.or_eq_true, Bool.and_eq_true, decide_eq_true_eq] at h
  omega

theorem mem_intercalate_of_mem (c : Nat) (s : List Nat) (ws : List (List Nat))
    (w : List Nat) (hw : w ∈ ws) (hc : c ∈ w) : c ∈ List.intercalate s ws := by
  induction ws with
  | nil => cases hw
  | cons w0 t ih =>
    cases t with
    | nil =>
      rw [intercalate_single]
      rcases List.mem_cons.mp hw with rfl | hw0
      · exact hc
      · cases hw0
    | cons w2 t2 =>
      rw [intercalate_cons₂]
      rcases List.mem_cons.mp hw with rfl | hw0
      · exact List.mem_append.mpr (Or.inl (List.mem_append.mpr (Or.inl hc)))
      · exact List.mem_append.mpr (Or.inr (ih hw0))

theorem filterMap_eq_self_of (f : List Nat → Option (List Nat)) (l : List (List Nat))
    (h : ∀ x ∈ l, f x = some x) : l.filterMap f = l := by
  induction l with
  | nil => rfl
  | cons x t ih =>
    rw [List.filterMap_cons, h x (List.mem_cons_self x t),
      ih (fun y hy => h y (List.mem_cons_of_mem x hy))]

theorem casedResult_lower (o : SlugOptions) (s : List Nat) (hl : o.lowercase = true)
    (hsep : isAlphabetic o.separator = false) :
    casedResult o s = List.intercalate [o.separator] ((survivingWords o s).map lowerStr) := by
  unfold casedResult joinedWords
  rw [hl, if_pos rfl, lowerStr_intercalate, lowerMap_not_alpha _ hsep]

theorem casedResult_nolower (o : SlugOptions) (s : List Nat) (hl : o.lowercase = false) :
    casedResult o s = List.intercalate [o.separator] (survivingWords o s) := by
  unfold casedResult joinedWords
  rw [hl]
  rfl

theorem sep_not_mem_word (o : SlugOptions) (s w : List Nat)
    (hw : w ∈ survivingWords o s) (hsep : isAlphanumeric o.separator = false)
    (hsep2 : o.separator ≠ 0x307) :
    o.separator ∉ lowerStr w ∧ o.separator ∉ w := by
  constructor
  · intro hmem
    rcases mem_lowerStr _ _ hmem with ⟨c, hc, hd⟩
    have hca := ((mem_survivingWords o s w hw).2 c hc).1
    rcases mem_lowerMap_alnum c _ hca hd with h1 | h1
    · rw [h1] at hsep; cases hsep
    · exact hsep2 h1
  · intro hmem
    have hca := ((mem_survivingWords o s w hw).2 _ hmem).1
    rw [hca] at hsep
    cases hsep

theorem survivingWords_of_all_ws (o : SlugOptions) (s : List Nat)
    (h : ∀ c ∈ s, isWS c = true) : survivingWords o s = [] := by
  unfold survivingWords
  rw [nfc_eq_self s (fun c hc => ws_range c (h c hc)),
    unicodeWords_nil_of_no_wordChar s (fun c hc => by
      rw [wordChar_eq_alnum]
      exact ws_not_alnum c (h c hc))]
  rfl

theorem alpha_alnum (c : Nat) (h : isAlphabetic c = true) : isAlphanumeric c = true := by
  simp [isAlphanumeric, h]

theorem not_alpha_of_not_alnum (c : Nat) (h : isAlphanumeric c = false) :
    isAlphabetic c = false := by
  cases hb : isAlphabetic c with
  | false => rfl
  | true => rw [alpha_alnum c hb] at h; cases h

theorem getLast_casedResult (o : SlugOptions) (s : List Nat)
    (hsep : isAlphanumeric o.separator = false) (hsep2 : o.separator ≠ 0x307) :
    (casedResult o s).getLast? ≠ some o.separator := by
  cases hl : o.lowercase with
  | true =>
    rw [casedResult_lower o s hl (not_alpha_of_not_alnum _ hsep)]
    have hne : ∀ w ∈ (survivingWords o s).map lowerStr, w ≠ [] := by
      intro w hw
      rcases List.mem_map.mp hw with ⟨w0, hw0, rfl⟩
      have h0 := (mem_survivingWords o s w0 hw0).1
      cases hw0e : w0 with
      | nil => exact absurd hw0e h0
      | cons c t => exact lowerStr_cons_ne_nil c t
    rcases getLast_intercalate o.separator _ hne with h | ⟨w, hw, he⟩
    · rw [h, intercalate_nil]; simp
    · rw [he]
      intro hx
      rcases List.mem_map.mp hw with ⟨w0, hw0, rfl⟩
      exact (sep_not_mem_word o s w0 hw0 hsep hsep2).1 (List.mem_of_getLast?_eq_some hx)
  | false =>
    rw [casedResult_nolower o s hl]
    have hne : ∀ w ∈ survivingWords o s, w ≠ [] :=
      fun w hw => (mem_survivingWords o s w hw).1
    rcases getLast_intercalate o.separator _ hne with h | ⟨w, hw, he⟩
    · rw [h, intercalate_nil]; simp
    · rw [he]
      intro hx
      exact (sep_not_mem_word o s w hw hsep hsep2).2 (List.mem_of_getLast?_eq_some hx)

theorem count_casedResult (o : SlugOptions) (s : List Nat)
    (hsep : isAlphanumeric o.separator = false) (hsep2 : o.separator ≠ 0x307) :
    (casedResult o s).count o.separator = (survivingWords o s).length - 1 := by
  cases hl : o.lowercase with
  | true =>
    rw [casedResult_lower o s hl (not_alpha_of_not_alnum _ hsep)]
    rw [count_intercalate o.separator _ (by
      intro w hw
      rcases List.mem_map.mp hw with ⟨w0, hw0, rfl⟩
      exact (sep_not_mem_word o s w0 hw0 hsep hsep2).1)]
    rw [List.length_map]
  | false =>
    rw [casedResult_nolower o s hl]
    exact count_intercalate o.separator _
      (fun w hw => (sep_not_mem_word o s w hw hsep hsep2).2)

theorem wordFilter_keep (o : SlugOptions) (w : List Nat) (hne : w ≠ [])
    (hall : ∀ c ∈ w, isAlphanumeric c = true) (hsw : o.remove_stopwords = false)
    (hao : o.ascii_only = false) : wordFilter o w = some w := by
  have htrim : trimStr w = w := trimStr_eq_self w (fun c hc => alnum_not_ws c (hall c hc))
  have hproc : processWordChars o w = w := by
    unfold processWordChars
    rw [hao]
    simp only [Bool.false_eq_true, if_false]
    exact List.filter_eq_self.mpr (fun c hc => by simp [hall c hc])
  unfold wordFilter
  rw [htrim, hsw, hproc]
  simp [hne]


/-- Claim C9: for every options value and every input that is empty or
consists only of whitespace, slugify returns the empty string. -/
theorem claim9_empty_short_circuit (s : List Nat) (o : SlugOptions)
    (h : ∀ c ∈ s, isWS c = true) : slugify s o = [] := by
  unfold slugify
  rw [if_pos (by rw [trimStr_eq_nil_of s h]; rfl)]

/-- Witness for C9 at a concrete whitespace-only input. -/
theorem claim9_empty_short_circuit_witness :
    slugify (str "   ") defaultOptions = [] :=
  claim9_empty_short_circuit (str "   ") defaultOptions (by decide)

/-- Claim C2 (amended): with max_length = N the truncation branch is entered
iff the UTF-8 byte length of the joined-and-cased result exceeds N (not its
code-point count); inside the branch the result is cut to exactly N code
points when the code-point count exceeds N (otherwise left uncut), and then
trailing separators are stripped; when the byte length does not exceed N the
result is returned unchanged. -/
theorem claim2_truncation_amended (o : SlugOptions) (s : List Nat) (N : Nat)
    (hmax : o.max_length = some N) :
    (utf8Len (casedResult o s) ≤ N → slugify s o = casedResult o s) ∧
    (utf8Len (casedResult o s) > N → N < (casedResult o s).length →
      slugify s o = stripTrailingSep o.separator ((casedResult o s).take N)) ∧
    (utf8Len (casedResult o s) > N → ¬ N < (casedResult o s).length →
      slugify s o = stripTrailingSep o.separator (casedResult o s)) := by
  have hslug : slugify s o = truncStep o (casedResult o s) := by
    by_cases h0 : (trimStr s).isEmpty = true
    · have hcs : casedResult o s = [] := by
        have hsw := survivingWords_of_all_ws o s
          (all_ws_of_trimStr_eq_nil s (by simpa using h0))
        unfold casedResult joinedWords
        rw [hsw, intercalate_nil]
        split <;> rfl
      unfold slugify
      rw [if_pos h0, hcs]
      simp only [truncStep, hmax]
      rw [if_neg (by simp [utf8Len])]
    · unfold slugify
      rw [if_neg h0]
  refine ⟨?_, ?_, ?_⟩
  · intro h1
    rw [hslug]
    simp only [truncStep, hmax]
    rw [if_neg (by omega)]
  · intro h1 h2
    rw [hslug]
    simp only [truncStep, hmax]
    rw [if_pos h1, if_pos h2]
  · intro h1 h2
    rw [hslug]
    simp only [truncStep, hmax]
    rw [if_pos h1, if_neg h2]

/-- Witness for C2 (amended), hitting the cut-and-strip branch. -/
theorem claim2_truncation_amended_witness :
    slugify (str "This is a very long title") ⟨0x2D, some 10, true, false, false⟩ =
      stripTrailingSep 0x2D ((casedResult ⟨0x2D, some 10, true, false, false⟩
        (str "This is a very long title")).take 10) :=
  (claim2_truncation_amended ⟨0x2D, some 10, true, false, false⟩
    (str "This is a very long title") 10 rfl).2.1 (by decide) (by decide)

/-- Counterexample to C2 as stated: with separator U+00E9 and max_length 2,
the input "xé" yields a joined-and-cased result of exactly 2 code points
(≤ max_length), yet slugify does not return it unchanged — the branch is
gated on the 3-byte UTF-8 length, and the trailing-separator strip fires. -/
theorem claim2_truncation_counterexample :
    (casedResult ⟨0xE9, some 2, true, false, false⟩ (str "xé")).length ≤ 2 ∧
    slugify (str "xé") ⟨0xE9, some 2, true, false, false⟩ ≠
      casedResult ⟨0xE9, some 2, true, false, false⟩ (str "xé") := by
  decide

/-- Claim C3 (amended): with max_length = some N the code-point count of the
result is always at most N; and the result does not end with the separator
provided the separator is not an alphanumeric/alphabetic character and not
the combining dot U+0307 (otherwise a word can end with it). -/
theorem claim3_length_bound_amended (s : List Nat) (o : SlugOptions) (N : Nat)
    (hmax : o.max_length = some N) :
    (slugify s o).length ≤ N ∧
    (isAlphanumeric o.separator = false → o.separator ≠ 0x307 →
      (slugify s o).getLast? ≠ some o.separator) := by
  constructor
  · unfold slugify
    split
    · simp
    · exact truncStep_length_le o _ N hmax
  · intro hsep hsep2
    unfold slugify
    split
    · simp
    · simp only [truncStep, hmax]
      by_cases h1 : utf8Len (casedResult o s) > N
      · rw [if_pos h1]
        exact stripTrailingSep_getLast _ _
      · rw [if_neg h1]
        exact getLast_casedResult o s hsep hsep2

/-- Witness for C3 (amended) at a concrete truncated input. -/
theorem claim3_length_bound_amended_witness :
    (slugify (str "This is a very long title")
      ⟨0x2D, some 10, true, false, false⟩).length ≤ 10 ∧
    (slugify (str "This is a very long title")
      ⟨0x2D, some 10, true, false, false⟩).getLast? ≠ some 0x2D :=
  ⟨(claim3_length_bound_amended (str "This is a very long title")
      ⟨0x2D, some 10, true, false, false⟩ 10 rfl).1,
   (claim3_length_bound_amended (str "This is a very long title")
      ⟨0x2D, some 10, true, false, false⟩ 10 rfl).2 (by decide) (by decide)⟩

/-- Counterexample to C3 as stated: with the alphanumeric separator U+0061
and max_length 10, slugify "za" = "za" ends with the separator. -/
theorem claim3_length_bound_counterexample :
    (slugify (str "za") ⟨0x61, some 10, true, false, false⟩).getLast? =
      some 0x61 := by
  decide

/-- Claim C5 (amended): without max_length, and provided the separator is
not an alphanumeric/alphabetic character and not the combining dot U+0307
(so that neither word content nor casing can produce it), the number of
separator occurrences in the output equals surviving word count − 1 when at
least one word survives, and 0 when no word survives. -/
theorem claim5_separator_count_amended (s : List Nat) (o : SlugOptions)
    (hmax : o.max_length = none) (hsep : isAlphanumeric o.separator = false)
    (hsep2 : o.separator ≠ 0x307) :
    (1 ≤ (survivingWords o s).length →
      (slugify s o).count o.separator = (survivingWords o s).length - 1) ∧
    ((survivingWords o s).length = 0 → (slugify s o).count o.separator = 0) := by
  have key : (slugify s o).count o.separator = (survivingWords o s).length - 1 := by
    unfold slugify
    by_cases h0 : (trimStr s).isEmpty = true
    · rw [if_pos h0]
      have hsw : survivingWords o s = [] := survivingWords_of_all_ws o s
        (all_ws_of_trimStr_eq_nil s (by simpa using h0))
      rw [hsw]
      rfl
    · rw [if_neg h0, truncStep_none o _ hmax]
      exact count_casedResult o s hsep hsep2
  exact ⟨fun _ => key, fun h => by rw [key, h]⟩

/-- Witness for C5 (amended) at a concrete two-word input. -/
theorem claim5_separator_count_amended_witness :
    (slugify (str "Hello World") defaultOptions).count 0x2D =
      (survivingWords defaultOptions (str "Hello World")).length - 1 :=
  (claim5_separator_count_amended (str "Hello World") defaultOptions rfl
    (by decide) (by decide)).1 (by decide)

/-- Counterexample to C5 as stated: with separator U+0061 and lowercasing,
the single surviving word "A" lowercases to "a", which equals the separator,
so the output contains one separator occurrence where the claim demands
zero. -/
theorem claim5_separator_count_counterexample :
    (slugify (str "A") ⟨0x61, none, true, false, false⟩).count 0x61 = 1 ∧
    (survivingWords ⟨0x61, none, true, false, false⟩ (str "A")).length = 1 := by
  decide

/-- Claim C7: under ascii_only each character of each segmented word is kept
if ASCII alphanumeric, replaced through transliterate_char if alphabetic and
in the fixed table, and dropped otherwise; slugify "Café münü" with
ascii_only gives "cafe-munu". -/
theorem claim7_ascii_only_handling :
    (∀ (o : SlugOptions) (w : List Nat), o.ascii_only = true →
      processWordChars o w = w.filterMap (fun c =>
        if isAsciiAlphanumeric c then some c
        else if isAlphabetic c then transliterate_char c else none)) ∧
    slugify (str "Café münü") ⟨0x2D, none, true, false, true⟩ = str "cafe-munu" := by
  constructor
  · intro o w hao
    unfold processWordChars
    rw [hao, if_pos rfl]
  · decide

/-- Witness for C7 at a concrete word. -/
theorem claim7_ascii_only_handling_witness :
    processWordChars ⟨0x2D, none, true, false, true⟩ (str "Café") =
      (str "Café").filterMap (fun c =>
        if isAsciiAlphanumeric c then some c
        else if isAlphabetic c then transliterate_char c else none) :=
  claim7_ascii_only_handling.1 ⟨0x2D, none, true, false, true⟩ (str "Café") rfl

theorem processWordChars_congr (o o2 : SlugOptions) (h : o.ascii_only = o2.ascii_only)
    (w : List Nat) : processWordChars o w = processWordChars o2 w := by
  unfold processWordChars
  rw [h]

/-- Claim C8: with remove_stopwords set, a word whose lowercased trimmed
form is in COMMON_STOPWORDS is dropped by the word filter, a word whose
lowercased form is not in the set is processed exactly as it would be with
remove_stopwords unset (original casing preserved downstream); slugify
"The quick brown fox" with remove_stopwords gives "quick-brown-fox". -/
theorem claim8_stopword_removal :
    (∀ (o : SlugOptions) (w : List Nat), o.remove_stopwords = true →
      (COMMON_STOPWORDS.contains (lowerStr (trimStr w)) = true →
        wordFilter o w = none) ∧
      (COMMON_STOPWORDS.contains (lowerStr (trimStr w)) = false →
        wordFilter o w =
          wordFilter ⟨o.separator, o.max_length, o.lowercase, false, o.ascii_only⟩ w)) ∧
    slugify (str "The quick brown fox") ⟨0x2D, none, true, true, false⟩ =
      str "quick-brown-fox" := by
  constructor
  · intro o w hrs
    constructor
    · intro hcont
      unfold wordFilter
      rw [hrs, hcont]
      by_cases h0 : (trimStr w).isEmpty = true
      · rw [if_pos h0]
      · rw [if_neg h0]
        simp
    · intro hcont
      unfold wordFilter
      rw [hrs, hcont,
        processWordChars_congr o
          ⟨o.separator, o.max_length, o.lowercase, false, o.ascii_only⟩ rfl (trimStr w)]
      simp
  · decide

/-- Witness for C8 at the stopword "The". -/
theorem claim8_stopword_removal_witness :
    wordFilter ⟨0x2D, none, true, true, false⟩ (str "The") = none :=
  (claim8_stopword_removal.1 ⟨0x2D, none, true, true, false⟩ (str "The") rfl).1
    (by decide)


/-- Claim C4 (amended): under default options every character of the result
is the separator, alphanumeric/alphabetic, or the combining dot U+0307 that
Unicode lowercasing introduces (e.g. from U+0130); under ascii_only every
character is ASCII alphanumeric, the separator itself, or a character of
the separator's Unicode lowercase form. -/
theorem claim4_output_charset_amended :
    (∀ (s : List Nat) (c : Nat), c ∈ slugify s defaultOptions →
      c = 0x2D ∨ isAlphanumeric c = true ∨ c = 0x307) ∧
    (∀ (s : List Nat) (o : SlugOptions) (c : Nat), o.ascii_only = true →
      c ∈ slugify s o →
      isAsciiAlphanumeric c = true ∨ c = o.separator ∨ c ∈ lowerMap o.separator) := by
  constructor
  · intro s c hc
    have h1 := mem_slugify s defaultOptions c hc
    rcases mem_casedResult _ _ _ h1 with ⟨_, d, hd, hdm⟩ | ⟨hf, _⟩
    · rcases mem_joinedWords _ _ _ hd with hds | ⟨w, hw, hdw⟩
      · left
        rw [hds] at hdm
        have he : lowerMap defaultOptions.separator = [0x2D] := by decide
        rw [he] at hdm
        simpa using hdm
      · right
        have hda := ((mem_survivingWords _ _ _ hw).2 d hdw).1
        rcases mem_lowerMap_alnum d c hda hdm with h2 | h2
        · left; exact h2
        · right; exact h2
    · exact absurd hf (by decide)
  · intro s o c hao hc
    have h1 := mem_slugify s o c hc
    rcases mem_casedResult _ _ _ h1 with ⟨_, d, hd, hdm⟩ | ⟨_, hd⟩
    · rcases mem_joinedWords _ _ _ hd with hds | ⟨w, hw, hdw⟩
      · right; right
        rw [← hds]
        exact hdm
      · left
        have hda := ((mem_survivingWords _ _ _ hw).2 d hdw).2 hao
        rw [lowerMap_eq_single d (by
          intro hx
          rw [hx] at hda
          exact absurd hda (by decide))] at hdm
        simp only [List.mem_singleton] at hdm
        rw [hdm]
        exact lowerChar_asciiAlnum d hda
    · rcases mem_joinedWords _ _ _ hd with hds | ⟨w, hw, hdw⟩
      · right; left; exact hds
      · left; exact ((mem_survivingWords _ _ _ hw).2 c hdw).2 hao

/-- Witness for C4 (amended) at a concrete member of a concrete slug. -/
theorem claim4_output_charset_amended_witness :
    (0x68 : Nat) = 0x2D ∨ isAlphanumeric 0x68 = true ∨ (0x68 : Nat) = 0x307 :=
  claim4_output_charset_amended.1 (str "Hello") 0x68 (by decide)

/-- Counterexample to C4 as stated: slugify "İ" under default options
contains U+0307, which is neither the separator nor alphanumeric nor
alphabetic. -/
theorem claim4_output_charset_counterexample :
    (0x307 : Nat) ∈ slugify (str "İ") defaultOptions ∧
    (0x307 : Nat) ≠ defaultOptions.separator ∧
    isAlphanumeric 0x307 = false ∧ isAlphabetic 0x307 = false := by
  decide

/-- Claim C1 (amended): slugify under default options is idempotent on
every input whose slug consists only of alphanumeric characters and the
separator; lowercasing can inject the non-alphanumeric combining dot
U+0307 (from U+0130), and on such slugs a second pass strips it. -/
theorem claim1_idempotence_amended (s : List Nat)
    (H : ∀ c ∈ slugify s defaultOptions, isAlphanumeric c = true ∨ c = 0x2D) :
    slugify (slugify s defaultOptions) defaultOptions = slugify s defaultOptions := by
  by_cases h0 : (trimStr s).isEmpty = true
  · have hout : slugify s defaultOptions = [] := by
      unfold slugify
      rw [if_pos h0]
    rw [hout]
    rfl
  · have hsep : isAlphabetic defaultOptions.separator = false := by decide
    have hout : slugify s defaultOptions = casedResult defaultOptions s := by
      unfold slugify
      rw [if_neg h0]
      exact truncStep_none _ _ rfl
    have hcase : casedResult defaultOptions s =
        List.intercalate [(0x2D : Nat)]
          ((survivingWords defaultOptions s).map lowerStr) :=
      casedResult_lower defaultOptions s rfl hsep
    set ws2 := (survivingWords defaultOptions s).map lowerStr with hws2def
    have hws2ne : ∀ w ∈ ws2, w ≠ [] := by
      intro w hw
      rcases List.mem_map.mp hw with ⟨w0, hw0, hmap⟩
      have h1 := (mem_survivingWords _ _ _ hw0).1
      cases hw0e : w0 with
      | nil => exact absurd hw0e h1
      | cons c t =>
        rw [← hmap, hw0e]
        exact lowerStr_cons_ne_nil c t
    have hws2alnum : ∀ w ∈ ws2, ∀ c ∈ w, isAlphanumeric c = true := by
      intro w hw c hc
      rcases List.mem_map.mp hw with ⟨w0, hw0, hmap⟩
      have hcin : c ∈ slugify s defaultOptions := by
        rw [hout, hcase]
        exact mem_intercalate_of_mem c _ ws2 w hw hc
      rcases H c hcin with h1 | h1
      · exact h1
      · exfalso
        rw [← hmap] at hc
        rcases mem_lowerStr _ _ hc with ⟨d, hd, hdm⟩
        have hda := ((mem_survivingWords _ _ _ hw0).2 d hd).1
        rcases mem_lowerMap_alnum d _ hda hdm with h2 | h2
        · rw [h1] at h2
          exact absurd h2 (by decide)
        · rw [h1] at h2
          exact absurd h2 (by decide)
    have Hout : ∀ c ∈ casedResult defaultOptions s,
        isAlphanumeric c = true ∨ c = 0x2D := by
      intro c hc
      exact H c (by rw [hout]; exact hc)
    by_cases hOutNil : casedResult defaultOptions s = []
    · rw [hout, hOutNil]
      rfl
    · have htrimout : trimStr (casedResult defaultOptions s) =
          casedResult defaultOptions s := by
        apply trimStr_eq_self
        intro c hc
        rcases Hout c hc with h1 | h1
        · exact alnum_not_ws c h1
        · rw [h1]; decide
      have hnfc : nfc (casedResult defaultOptions s) = casedResult defaultOptions s := by
        apply nfc_eq_self
        intro c hc
        rcases Hout c hc with h1 | h1
        · rcases alnum_bounds c h1 with h2 | h2 <;> omega
        · omega
      have hwords : unicodeWords (casedResult defaultOptions s) = ws2 := by
        rw [hcase]
        apply unicodeWords_intercalate 0x2D (by decide) (by decide) ws2 hws2ne
        intro w hw c hc
        rw [wordChar_eq_alnum]
        exact hws2alnum w hw c hc
      have hsurv2 : survivingWords defaultOptions (casedResult defaultOptions s) = ws2 := by
        unfold survivingWords
        rw [hnfc, hwords]
        apply filterMap_eq_self_of
        intro w hw
        exact wordFilter_keep defaultOptions w (hws2ne w hw) (hws2alnum w hw) rfl rfl
      have hmaplower : ws2.map lowerStr = ws2 := by
        rw [hws2def]
        generalize survivingWords defaultOptions s = l
        induction l with
        | nil => rfl
        | cons x t ih => simp [lowerStr_idem, ih]
      rw [hout]
      unfold slugify
      rw [if_neg (by simp [htrimout, hOutNil])]
      rw [truncStep_none _ _ rfl]
      rw [casedResult_lower defaultOptions _ rfl hsep, hsurv2, hmaplower, hcase]
      rfl

/-- Witness for C1 (amended) at a concrete input whose slug is clean. -/
theorem claim1_idempotence_amended_witness :
    slugify (slugify (str "Hello World") defaultOptions) defaultOptions =
      slugify (str "Hello World") defaultOptions :=
  claim1_idempotence_amended (str "Hello World") (by decide)

/-- Counterexample to C1 as stated: slugify "İ" = "i" + U+0307, but a second
pass drops the combining dot, so slugify is not idempotent on "İ". -/
theorem claim1_idempotence_counterexample :
    slugify (slugify (str "İ") defaultOptions) defaultOptions ≠
      slugify (str "İ") defaultOptions := by
  decide


/-- Claim C6: the two adapter entries return none (a null pointer) exactly
when the input is none (null pointer), the input bytes fail UTF-8 decoding,
or the re-encoded slug contains an embedded NUL byte; in every other case
they return the UTF-8 bytes of slugify applied to the decoded input, with
default options for slugify_simple. -/
theorem claim6_adapter_error_signalling :
    slugify_simple none = none ∧
    (∀ sep ml lc rs ao, slugify_with_options none sep ml lc rs ao = none) ∧
    (∀ bytes, utf8Decode bytes = none →
      slugify_simple (some bytes) = none ∧
      ∀ sep ml lc rs ao, slugify_with_options (some bytes) sep ml lc rs ao = none) ∧
    (∀ bytes s, utf8Decode bytes = some s →
      ((utf8Encode (slugify s defaultOptions)).contains 0 = true →
        slugify_simple (some bytes) = none) ∧
      ((utf8Encode (slugify s defaultOptions)).contains 0 = false →
        slugify_simple (some bytes) =
          some (utf8Encode (slugify s defaultOptions)))) ∧
    (∀ bytes s sep ml lc rs ao, utf8Decode bytes = some s →
      ((utf8Encode (slugify s ⟨c_char_to_byte sep,
          if ml > 0 then some ml.toNat else none, lc, rs, ao⟩)).contains 0 = true →
        slugify_with_options (some bytes) sep ml lc rs ao = none) ∧
      ((utf8Encode (slugify s ⟨c_char_to_byte sep,
          if ml > 0 then some ml.toNat else none, lc, rs, ao⟩)).contains 0 = false →
        slugify_with_options (some bytes) sep ml lc rs ao =
          some (utf8Encode (slugify s ⟨c_char_to_byte sep,
            if ml > 0 then some ml.toNat else none, lc, rs, ao⟩)))) := by
  refine ⟨rfl, fun sep ml lc rs ao => rfl, ?_, ?_, ?_⟩
  · intro bytes hdec
    constructor
    · simp only [slugify_simple, hdec]
    · intro sep ml lc rs ao
      simp only [slugify_with_options, hdec]
  · intro bytes s hdec
    constructor
    · intro hcont
      simp only [slugify_simple, hdec, hcont]
      rfl
    · intro hcont
      simp only [slugify_simple, hdec, hcont]
      rfl
  · intro bytes s sep ml lc rs ao hdec
    constructor
    · intro hcont
      simp only [slugify_with_options, hdec, hcont]
      rfl
    · intro hcont
      simp only [slugify_with_options, hdec, hcont]
      rfl

/-- Witness for C6: the simple entry on the bytes of "Hello World". -/
theorem claim6_adapter_error_signalling_witness :
    slugify_simple (some (str "Hello World")) =
      some (utf8Encode (slugify (str "Hello World") defaultOptions)) :=
  ((claim6_adapter_error_signalling.2.2.2.1 (str "Hello World")
    (str "Hello World") (by decide)).2) (by decide)

/-- Claim C10: the configurable entry reinterprets the separator c_char as
its unsigned byte value 0-255 (so negative values land in 128-255, i.e.
Latin-1 code points U+0080-U+00FF, with no rejection and no UTF-8
decoding), and maps a non-positive max_length to unbounded and a positive
one to the bound; the resulting options feed slugify directly. -/
theorem claim10_separator_byte_reinterpretation :
    (∀ x : Int, -128 ≤ x → x < 0 →
      128 ≤ c_char_to_byte x ∧ c_char_to_byte x ≤ 255) ∧
    (∀ x : Int, 0 ≤ x → x ≤ 127 → c_char_to_byte x = x.toNat) ∧
    (∀ bytes s sep ml lc rs ao, utf8Decode bytes = some s →
      slugify_with_options (some bytes) sep ml lc rs ao =
        (if (utf8Encode (slugify s ⟨c_char_to_byte sep,
            if ml > 0 then some ml.toNat else none, lc, rs, ao⟩)).contains 0
         then none
         else some (utf8Encode (slugify s ⟨c_char_to_byte sep,
            if ml > 0 then some ml.toNat else none, lc, rs, ao⟩)))) := by
  refine ⟨?_, ?_, ?_⟩
  · intro x h1 h2
    unfold c_char_to_byte
    omega
  · intro x h1 h2
    unfold c_char_to_byte
    omega
  · intro bytes s sep ml lc rs ao hdec
    simp only [slugify_with_options, hdec]

/-- Witness for C10: the c_char value -23 becomes the byte 233 (U+00E9). -/
theorem claim10_separator_byte_reinterpretation_witness :
    128 ≤ c_char_to_byte (-23) ∧ c_char_to_byte (-23) ≤ 255 :=
  claim10_separator_byte_reinterpretation.1 (-23) (by decide) (by decide)

example : str "ab" = [0x61, 0x62] := by decide
example : slugify (str "Hello World") defaultOptions = str "hello-world" := by decide
example : slugify (str "Hello, World! @#$%") defaultOptions = str "hello-world" := by decide
example : slugify (str "Test 123") defaultOptions = str "test-123" := by decide
example : slugify (str "Café münü") defaultOptions = str "café-münü" := by decide
example : slugify (str "Café münü") ⟨0x2D, none, true, false, true⟩ = str "cafe-munu" := by decide
example : slugify (str "Hello World") ⟨0x5F, none, true, false, false⟩ = str "hello_world" := by decide
example : slugify (str "This is a very long title") ⟨0x2D, some 10, true, false, false⟩ = str "this-is-a" := by decide
example : slugify (str "The quick brown fox") ⟨0x2D, none, true, true, false⟩ = str "quick-brown-fox" := by decide
example : slugify (str "") defaultOptions = [] := by decide
example : slugify (str "   ") defaultOptions = [] := by decide
example : slugify (str "İ") defaultOptions = [0x69, 0x307] := by decide
example : slugify [0x69, 0x307] defaultOptions = [0x69] := by decide
example : slugify (str "xé") ⟨0xE9, some 2, true, false, false⟩ = str "x" := by decide
example : slugify (str "za") ⟨0x61, some 10, true, false, false⟩ = str "za" := by decide
example : slugify (str "A") ⟨0x61, none, true, false, false⟩ = str "a" := by decide
